import Mathlib

/-!
A shallow embedding of the `topo` class of `globotopo/globotopo.py`
(methods `get_all`, `get_region`, the module-level helpers
`searchsorted_left` / `searchsorted_right`) and of the `smithsandwell`
constructor, together with theorems settling the specification claims.

Modelling conventions:
* numpy 1-D and 2-D arrays are modelled as a length (resp. a shape)
  plus a total entry function (`Vec`, `Arr2`); this mirrors numpy
  views, where slicing and striding never copy.  Entries beyond the
  stated length are junk and every theorem quantifies within bounds.
* Python floats are modelled as elements of a linear ordered field
  (`ℚ` for concrete witnesses, `ℝ` for the constructed Smith-Sandwell
  handle, whose latitude axis is transcendental).
* `np.searchsorted(a, v, side)` on a sorted 1-D array returns the
  insertion index that keeps `a` sorted: for `side='left'` the number
  of entries `< v`, for `side='right'` the number of entries `≤ v`
  (numpy's documented contract; all arrays searched by this program
  are sorted).  We embed that contract directly.
* `raise ValueError` is modelled by `Except.error` with one
  constructor per validation message.
-/

namespace Globotopo

/-- A numpy-style one-dimensional array: a length and an entry function. -/
structure Vec (α : Type) where
  len : ℕ
  entry : ℕ → α

/-- A numpy-style two-dimensional array: a shape and an entry function. -/
structure Arr2 (α : Type) where
  rows : ℕ
  cols : ℕ
  entry : ℕ → ℕ → α

/-- Python slice `v[a:b]` (for `a ≤ b`): length `min b len - min a len`,
entries shifted by `a`. -/
def Vec.slice {α : Type} (v : Vec α) (a b : ℕ) : Vec α :=
  ⟨min b v.len - min a v.len, fun i => v.entry (a + i)⟩

/-- Python stride `v[::k]` (for `k ≥ 1`): every `k`-th entry starting at 0;
the length `(len + k - 1) / k` is `⌈len / k⌉`. -/
def Vec.stride {α : Type} (k : ℕ) (v : Vec α) : Vec α :=
  ⟨(v.len + k - 1) / k, fun i => v.entry (i * k)⟩

/-- Python 2-D slice `A[r1:r2, c1:c2]`. -/
def Arr2.slice {α : Type} (A : Arr2 α) (r1 r2 c1 c2 : ℕ) : Arr2 α :=
  ⟨min r2 A.rows - min r1 A.rows, min c2 A.cols - min c1 A.cols,
   fun i j => A.entry (r1 + i) (c1 + j)⟩

/-- Python 2-D stride `A[::k, ::k]`. -/
def Arr2.stride {α : Type} (k : ℕ) (A : Arr2 α) : Arr2 α :=
  ⟨(A.rows + k - 1) / k, (A.cols + k - 1) / k, fun i j => A.entry (i * k) (j * k)⟩

/-- Model of `np.searchsorted(v, x, side='left')` on a sorted array: the number of
entries strictly below `x`. -/
def np_searchsorted_l {α : Type} [LinearOrder α] (v : Vec α) (x : α) : ℕ :=
  ((Finset.range v.len).filter (fun i => v.entry i < x)).card

/-- Model of `np.searchsorted(v, x, side='right')` on a sorted array: the number of
entries at or below `x`. -/
def np_searchsorted_r {α : Type} [LinearOrder α] (v : Vec α) (x : α) : ℕ :=
  ((Finset.range v.len).filter (fun i => v.entry i ≤ x)).card

/-- Source function `searchsorted_left(data, leftside)`:
`max(np.searchsorted(data, leftside, side='left') - 1, 0)`.
(The source's one-dimensionality check is enforced by the `Vec` type.)
In `ℕ`, truncated subtraction makes the `max` with 0 automatic, but we
keep it to mirror the source. -/
def searchsorted_left {α : Type} [LinearOrder α] (data : Vec α) (leftside : α) : ℕ :=
  max (np_searchsorted_l data leftside - 1) 0

/-- Source function `searchsorted_right(data, rightside)`:
`min(np.searchsorted(data, rightside, side='right'), np.size(data) - 1)`. -/
def searchsorted_right {α : Type} [LinearOrder α] (data : Vec α) (rightside : α) : ℕ :=
  min (np_searchsorted_r data rightside) (data.len - 1)

/-- The query rectangle `region = [south, north, west, east]` passed to
`get_region` (fields in the positional order of the Python list). -/
structure Box (α : Type) where
  south : α
  north : α
  west : α
  east : α

/-- The three `ValueError`s raised by `get_region`'s validation. -/
inductive TopoError where
  | lonOut : TopoError
  | latOut : TopoError
  | degenerate : TopoError
deriving DecidableEq

/-- The attributes of a `topo` object that `get_all` / `get_region` read:
`nlon`, `minlat`, `maxlat`, `lat`, `lon`, `topomem`. -/
structure Topo (α : Type) where
  nlon : ℕ
  minlat : α
  maxlat : α
  lat : Vec α
  lon : Vec α
  topomem : Arr2 ℤ

/-- First component of `np.meshgrid(lon, lat)` transposed into the order the
source returns: the latitude mesh, `latMesh[i, j] = lat[i]`, shape
`(len lat, len lon)`. -/
def latMesh {α : Type} (lat lon : Vec α) : Arr2 α :=
  ⟨lat.len, lon.len, fun i _ => lat.entry i⟩

/-- The longitude mesh of `np.meshgrid(lon, lat)`: `lonMesh[i, j] = lon[j]`,
shape `(len lat, len lon)`. -/
def lonMesh {α : Type} (lat lon : Vec α) : Arr2 α :=
  ⟨lat.len, lon.len, fun _ j => lon.entry j⟩

/-- Method `topo.get_all(subsample)`: stride every axis and the data, then mesh. -/
def get_all {α : Type} (t : Topo α) (subsample : ℕ) :
    Arr2 α × Arr2 α × Arr2 ℤ :=
  let topo := t.topomem.stride subsample
  let lat := t.lat.stride subsample
  let lon := t.lon.stride subsample
  (latMesh lat lon, lonMesh lat lon, topo)

/-- Method `topo.get_region(region, subsample)` up to (but not including) the final
`np.meshgrid`: returns `(rlat, rlon, rtopo)` as the source computes them.
Mirrors the source line by line: sort `(south, north)`; validate longitudes
against the ±180 convention, latitudes against `minlat`/`maxlat`, and
degeneracy; bound the box by `searchsorted_left` / `searchsorted_right`;
slice directly when not across the dateline, otherwise glue
`topomem[jsouth:jnorth, iwest:]` (at its own longitudes) before
`topomem[jsouth:jnorth, :ieast]` (longitudes shifted by +360); finally
stride by `subsample` when it is given. -/
def get_region_core {α : Type} [LinearOrderedField α] (t : Topo α) (region : Box α)
    (subsample : Option ℕ) : Except TopoError (Vec α × Vec α × Arr2 ℤ) :=
  let south := min region.south region.north
  let north := max region.south region.north
  let west := region.west
  let east := region.east
  if ¬(-180 ≤ east ∧ east ≤ 180) ∨ ¬(-180 ≤ west ∧ west ≤ 180) then
    .error .lonOut
  else if south < t.minlat ∨ north > t.maxlat then
    .error .latOut
  else if east = west ∨ south = north then
    .error .degenerate
  else
    let jsouth := searchsorted_left t.lat south
    let jnorth := searchsorted_right t.lat north
    let iwest := searchsorted_left t.lon west
    let ieast := searchsorted_right t.lon east
    let rlat := t.lat.slice jsouth jnorth
    let rp : Vec α × Arr2 ℤ :=
      if west > east then
        let nrlat := jnorth - jsouth
        let nreast := ieast
        let nrwest := t.nlon - iwest
        (⟨nreast + nrwest, fun j =>
            if j < nrwest then t.lon.entry (iwest + j)
            else t.lon.entry (j - nrwest) + 360⟩,
         ⟨nrlat, nreast + nrwest, fun i j =>
            if j < nrwest then t.topomem.entry (jsouth + i) (iwest + j)
            else t.topomem.entry (jsouth + i) (j - nrwest)⟩)
      else
        (t.lon.slice iwest ieast, t.topomem.slice jsouth jnorth iwest ieast)
    let rlon := rp.1
    let rtopo := rp.2
    match subsample with
    | none => .ok (rlat, rlon, rtopo)
    | some k => .ok (rlat.stride k, rlon.stride k, rtopo.stride k)

/-- Method `topo.get_region` including the final `np.meshgrid`: the returned triple
is `(rlat mesh, rlon mesh, rtopo)`. -/
def get_region {α : Type} [LinearOrderedField α] (t : Topo α) (region : Box α)
    (subsample : Option ℕ) : Except TopoError (Arr2 α × Arr2 α × Arr2 ℤ) :=
  (get_region_core t region subsample).map fun r =>
    (latMesh r.1 r.2.1, lonMesh r.1 r.2.1, r.2.2)

/-! ## The `smithsandwell` constructor

Fixed constants of the Smith-Sandwell v18.1 grid, and the construction of
the latitude axis (inverse Mercator), of the longitude axis (evenly spaced,
cell centered, reshuffled from [0, 360) to the ±180 convention) and of the
data array (`np.flipud` of the memory map, columns reshuffled with the
longitude axis).  The backing file is modelled by an arbitrary function
`raw : ℕ → ℕ → ℤ` giving the int16 sample stored at (row, column) of the
on-disk row-major grid. -/

/-- Constant `nlon = 21600`. -/
def ss_nlon : ℕ := 21600

/-- Constant `nlat = 17280`. -/
def ss_nlat : ℕ := 17280

/-- Constant `rad = pi/180`. -/
noncomputable def ss_rad : ℝ := Real.pi / 180

/-- Constant `arg2 = log(tan(rad*((90 - maxlat)/2)))` with `maxlat = 80.738`. -/
noncomputable def ss_arg2 : ℝ := Real.log (Real.tan (ss_rad * ((90 - 80.738) / 2)))

/-- Sequence `arg1 = rad*(nlat - inds + 0.5)*1/60` at `inds = i + 1`
(`inds = np.arange(nlat) + 1`). -/
noncomputable def ss_arg1 (i : ℕ) : ℝ :=
  ss_rad * (ss_nlat - ((i : ℝ) + 1) + 0.5) * (1 / 60)

/-- The latitude vector before the flip:
`2*np.arctan(np.exp(arg1 + arg2))/rad - 90`. -/
noncomputable def ss_lat_unflipped (i : ℕ) : ℝ :=
  2 * Real.arctan (Real.exp (ss_arg1 i + ss_arg2)) / ss_rad - 90

/-- Attribute `self.lat`: the Mercator latitude axis after `self.lat[::-1]`. -/
noncomputable def ss_lat : Vec ℝ :=
  ⟨ss_nlat, fun i => ss_lat_unflipped (ss_nlat - 1 - i)⟩

/-- Raw axis `np.linspace(0, 360 - 1/60, nlon) + 1/120`: entry `j` is
`j * ((360 - 1/60) / (nlon - 1)) + 1/120`. -/
noncomputable def ss_lon_linspace (j : ℕ) : ℝ :=
  (j : ℝ) * ((360 - 1 / 60) / (ss_nlon - 1)) + 1 / 120

/-- The longitude values after `self.lon[imid:] = self.lon[imid:] - 360`
with `imid = self.lon.size // 2 = 10800`. -/
noncomputable def ss_lon_shifted (j : ℕ) : ℝ :=
  if ss_nlon / 2 ≤ j then ss_lon_linspace j - 360 else ss_lon_linspace j

/-- Permutation `isort = np.argsort(self.lon)` after the shift: the shifted upper half
(original indices 10800..21599) comes first, then the lower half, i.e.
`isort[j] = (j + 10800) % 21600`.  (That this is the sorting permutation
is certified by `ss_lon_eq`/`ss_axes` below: it is a bijection of the
index range and the reordered axis is strictly increasing.) -/
def ss_isort (j : ℕ) : ℕ := (j + ss_nlon / 2) % ss_nlon

/-- Attribute `self.lon` after `self.lon = self.lon[isort]`. -/
noncomputable def ss_lon : Vec ℝ :=
  ⟨ss_nlon, fun j => ss_lon_shifted (ss_isort j)⟩

/-- View `np.flipud(np.memmap(...))`: row `i` is on-disk row `nlat - 1 - i`. -/
def ss_flipud (raw : ℕ → ℕ → ℤ) (i j : ℕ) : ℤ := raw (ss_nlat - 1 - i) j

/-- Attribute `self.topomem` after `self.topomem = self.topomem[:, isort]`. -/
def ss_topomem (raw : ℕ → ℕ → ℤ) : Arr2 ℤ :=
  ⟨ss_nlat, ss_nlon, fun i j => ss_flipud raw i (ss_isort j)⟩

/-- Constructor `smithsandwell.__init__` (given that the backing file exists): the
constructed handle with `minlat = -80.738`, `maxlat = 80.738` and the
axes and data above. -/
noncomputable def smithsandwell (raw : ℕ → ℕ → ℤ) : Topo ℝ :=
  ⟨ss_nlon, -80.738, 80.738, ss_lat, ss_lon, ss_topomem raw⟩

/-! ## Derived predicates used by the claims -/

/-- Strictly increasing within bounds (stated with bounded quantifiers so
that it is decidable on concrete vectors). -/
def StrictIncr {α : Type} [LinearOrder α] (v : Vec α) : Prop :=
  ∀ j : ℕ, j < v.len → ∀ i : ℕ, i < j → v.entry i < v.entry j

/-- Evenly spaced with step `d` (bounded quantifier, decidable on concrete
vectors; for `k < len - 1` we have `k + 1 < len`). -/
def EquiSpaced {α : Type} [Add α] [DecidableEq α] (v : Vec α) (d : α) : Prop :=
  ∀ k : ℕ, k < v.len - 1 → v.entry (k + 1) = v.entry k + d

instance strictIncr_dec {α : Type} [LinearOrder α] (v : Vec α) :
    Decidable (StrictIncr v) :=
  inferInstanceAs (Decidable (∀ j, j < v.len → ∀ i, i < j → v.entry i < v.entry j))

instance equiSpaced_dec {α : Type} [Add α] [DecidableEq α] (v : Vec α) (d : α) :
    Decidable (EquiSpaced v d) :=
  inferInstanceAs (Decidable (∀ k, k < v.len - 1 → v.entry (k + 1) = v.entry k + d))

/-- Congruence of two longitudes modulo 360 degrees. -/
def lonCongr {α : Type} [Ring α] (x y : α) : Prop :=
  ∃ k : ℤ, x - y = 360 * k

/-! ## Concrete instances used by witnesses and counterexamples -/

/-- A small strictly increasing integer axis `[0, 1, 2]`. -/
def axis3 : Vec ℤ := ⟨3, fun i => (i : ℤ)⟩

/-- A backing file in which every sample records its on-disk row index. -/
def raw_byrow : ℕ → ℕ → ℤ := fun i _ => (i : ℤ)

/-- A small, fully concrete rational handle with the same well-formedness
invariants as a constructed dataset: strictly increasing axes (`lat` is
`[0, 1]`, `lon` is `[-135, -45, 45, 135]`, evenly spaced by 90 and spanning
less than 360 degrees), matching `nlon` and data shape. -/
def demo : Topo ℚ :=
  ⟨4, -10, 10,
   ⟨2, fun i => if i = 0 then 0 else 1⟩,
   ⟨4, fun j => if j = 0 then -135 else if j = 1 then -45 else if j = 2 then 45 else 135⟩,
   ⟨2, 4, fun i j => ((4 * i + j : ℕ) : ℤ)⟩⟩

/-! ## Helper lemmas on `np.searchsorted` over sorted axes -/

/-- A downward-closed finite set of naturals is an initial segment. -/
theorem downclosed_eq_range (S : Finset ℕ)
    (h : ∀ a b : ℕ, a ≤ b → b ∈ S → a ∈ S) : S = Finset.range S.card := by
  ext j
  simp only [Finset.mem_range]
  constructor
  · intro hj
    have hsub : Finset.range (j + 1) ⊆ S := fun a ha =>
      h a j (Nat.lt_succ_iff.mp (Finset.mem_range.mp ha)) hj
    have hcard := Finset.card_le_card hsub
    simpa [Finset.card_range] using hcard
  · intro hj
    by_contra hns
    have hsub : S ⊆ Finset.range j := by
      intro b hb
      rw [Finset.mem_range]
      by_contra hbj
      exact hns (h j b (Nat.le_of_not_lt hbj) hb)
    have hcard := Finset.card_le_card hsub
    rw [Finset.card_range] at hcard
    omega

theorem np_l_le_len {α : Type} [LinearOrder α] (v : Vec α) (x : α) :
    np_searchsorted_l v x ≤ v.len := by
  classical
  have h := Finset.card_filter_le (Finset.range v.len) (fun i => v.entry i < x)
  simpa [np_searchsorted_l, Finset.card_range] using h

theorem np_r_le_len {α : Type} [LinearOrder α] (v : Vec α) (x : α) :
    np_searchsorted_r v x ≤ v.len := by
  classical
  have h := Finset.card_filter_le (Finset.range v.len) (fun i => v.entry i ≤ x)
  simpa [np_searchsorted_r, Finset.card_range] using h

/-- On a strictly increasing axis, the entries below `x` form an initial
segment of length `np_searchsorted_l v x`. -/
theorem np_l_filter_eq {α : Type} [LinearOrder α] (v : Vec α) (hv : StrictIncr v)
    (x : α) :
    (Finset.range v.len).filter (fun i => v.entry i < x) =
      Finset.range (np_searchsorted_l v x) := by
  apply downclosed_eq_range
  intro a b hab hb
  rw [Finset.mem_filter, Finset.mem_range] at hb ⊢
  rcases eq_or_lt_of_le hab with rfl | hlt
  · exact hb
  · exact ⟨hlt.trans hb.1, (hv b hb.1 a hlt).trans hb.2⟩

theorem np_r_filter_eq {α : Type} [LinearOrder α] (v : Vec α) (hv : StrictIncr v)
    (x : α) :
    (Finset.range v.len).filter (fun i => v.entry i ≤ x) =
      Finset.range (np_searchsorted_r v x) := by
  apply downclosed_eq_range
  intro a b hab hb
  rw [Finset.mem_filter, Finset.mem_range] at hb ⊢
  rcases eq_or_lt_of_le hab with rfl | hlt
  · exact hb
  · exact ⟨hlt.trans hb.1, ((hv b hb.1 a hlt).le).trans hb.2⟩

/-- Membership characterization: for `j` within bounds,
`v.entry j < x ↔ j < np_searchsorted_l v x`. -/
theorem np_l_iff {α : Type} [LinearOrder α] (v : Vec α) (hv : StrictIncr v)
    (x : α) {j : ℕ} (hj : j < v.len) :
    v.entry j < x ↔ j < np_searchsorted_l v x := by
  have h := np_l_filter_eq v hv x
  constructor
  · intro hx
    have : j ∈ (Finset.range v.len).filter (fun i => v.entry i < x) := by
      rw [Finset.mem_filter, Finset.mem_range]; exact ⟨hj, hx⟩
    rw [h, Finset.mem_range] at this; exact this
  · intro hx
    have : j ∈ (Finset.range v.len).filter (fun i => v.entry i < x) := by
      rw [h, Finset.mem_range]; exact hx
    rw [Finset.mem_filter] at this; exact this.2

theorem np_r_iff {α : Type} [LinearOrder α] (v : Vec α) (hv : StrictIncr v)
    (x : α) {j : ℕ} (hj : j < v.len) :
    v.entry j ≤ x ↔ j < np_searchsorted_r v x := by
  have h := np_r_filter_eq v hv x
  constructor
  · intro hx
    have : j ∈ (Finset.range v.len).filter (fun i => v.entry i ≤ x) := by
      rw [Finset.mem_filter, Finset.mem_range]; exact ⟨hj, hx⟩
    rw [h, Finset.mem_range] at this; exact this
  · intro hx
    have : j ∈ (Finset.range v.len).filter (fun i => v.entry i ≤ x) := by
      rw [h, Finset.mem_range]; exact hx
    rw [Finset.mem_filter] at this; exact this.2

/-- At a stored grid value, left insertion lands exactly at its index. -/
theorem np_l_at_entry {α : Type} [LinearOrder α] (v : Vec α) (hv : StrictIncr v)
    {i : ℕ} (hi : i < v.len) : np_searchsorted_l v (v.entry i) = i := by
  unfold np_searchsorted_l
  have h : (Finset.range v.len).filter (fun j => v.entry j < v.entry i) =
      Finset.range i := by
    ext j
    simp only [Finset.mem_filter, Finset.mem_range]
    constructor
    · rintro ⟨hj, hlt⟩
      by_contra hji
      push_neg at hji
      rcases eq_or_lt_of_le hji with rfl | hgt
      · exact lt_irrefl _ hlt
      · exact lt_asymm hlt (hv j hj i hgt)
    · intro hj
      exact ⟨hj.trans hi, hv i hi j hj⟩
  rw [h, Finset.card_range]

/-- At a stored grid value, right insertion lands just past its index. -/
theorem np_r_at_entry {α : Type} [LinearOrder α] (v : Vec α) (hv : StrictIncr v)
    {i : ℕ} (hi : i < v.len) : np_searchsorted_r v (v.entry i) = i + 1 := by
  unfold np_searchsorted_r
  have h : (Finset.range v.len).filter (fun j => v.entry j ≤ v.entry i) =
      Finset.range (i + 1) := by
    ext j
    simp only [Finset.mem_filter, Finset.mem_range]
    constructor
    · rintro ⟨hj, hle⟩
      by_contra hji
      push_neg at hji
      exact absurd (hv j hj i hji) (not_lt.mpr hle)
    · intro hj
      rcases Nat.lt_succ_iff_lt_or_eq.mp hj with hlt | rfl
      · exact ⟨hlt.trans hi, (hv i hi j hlt).le⟩
      · exact ⟨hi, le_refl _⟩
  rw [h, Finset.card_range]

/-! ## Properties of the constructed Smith-Sandwell axes -/

theorem ss_rad_pos : 0 < ss_rad :=
  div_pos Real.pi_pos (by norm_num)

/-- The unflipped Mercator latitude vector is strictly decreasing: larger
row index means smaller `arg1`, and `x ↦ 2 atan (exp x) / rad - 90` is
strictly increasing. -/
theorem ss_lat_unflipped_anti {a b : ℕ} (hab : a < b) :
    ss_lat_unflipped b < ss_lat_unflipped a := by
  have hr := ss_rad_pos
  have harg : ss_arg1 b < ss_arg1 a := by
    unfold ss_arg1
    have hab' : (a : ℝ) < (b : ℝ) := by exact_mod_cast hab
    have h1 : (ss_nlat : ℝ) - ((b : ℝ) + 1) + 0.5 <
        (ss_nlat : ℝ) - ((a : ℝ) + 1) + 0.5 := by linarith
    have h2 := mul_lt_mul_of_pos_left h1 hr
    have h3 := mul_lt_mul_of_pos_right h2 (show (0 : ℝ) < 1 / 60 by norm_num)
    exact h3
  have hexp : Real.exp (ss_arg1 b + ss_arg2) < Real.exp (ss_arg1 a + ss_arg2) :=
    Real.exp_lt_exp.mpr (by linarith)
  have hatan := Real.arctan_strictMono hexp
  unfold ss_lat_unflipped
  have h2 : 2 * Real.arctan (Real.exp (ss_arg1 b + ss_arg2)) <
      2 * Real.arctan (Real.exp (ss_arg1 a + ss_arg2)) := by linarith
  have h4 : 2 * Real.arctan (Real.exp (ss_arg1 b + ss_arg2)) / ss_rad <
      2 * Real.arctan (Real.exp (ss_arg1 a + ss_arg2)) / ss_rad :=
    div_lt_div_of_pos_right h2 hr
  linarith

/-- The constructed latitude axis is strictly increasing. -/
theorem ss_lat_strictIncr : StrictIncr ss_lat := by
  intro j hj i hij
  show ss_lat_unflipped (ss_nlat - 1 - i) < ss_lat_unflipped (ss_nlat - 1 - j)
  apply ss_lat_unflipped_anti
  have hj' : j < ss_nlat := hj
  unfold ss_nlat at hj' ⊢
  omega

/-- Closed form of the reshuffled longitude axis: entry `j` equals
`j/60 + 1/120 - 180` (evenly spaced by `1/60`, spanning
`[-180 + 1/120, 180 - 1/120]`). -/
theorem ss_lon_entry_eq {j : ℕ} (hj : j < ss_nlon) :
    ss_lon.entry j = (j : ℝ) * (1 / 60) + 1 / 120 - 180 := by
  have hstep : ((360 : ℝ) - 1 / 60) / ((ss_nlon : ℝ) - 1) = 1 / 60 := by
    unfold ss_nlon
    norm_num
  have hj' : j < 21600 := hj
  simp only [ss_lon]
  by_cases hcase : j < 10800
  · have hisort : ss_isort j = j + 10800 := by
      unfold ss_isort ss_nlon
      omega
    rw [hisort]
    unfold ss_lon_shifted
    rw [if_pos (by unfold ss_nlon; omega)]
    unfold ss_lon_linspace
    rw [hstep]
    push_cast
    ring
  · have hisort : ss_isort j = j - 10800 := by
      unfold ss_isort ss_nlon
      omega
    rw [hisort]
    unfold ss_lon_shifted
    rw [if_neg (by unfold ss_nlon; omega)]
    unfold ss_lon_linspace
    rw [hstep]
    have hcast : ((j - 10800 : ℕ) : ℝ) = (j : ℝ) - 10800 := by
      have : 10800 ≤ j := Nat.le_of_not_lt hcase
      push_cast [this]
      ring
    rw [hcast]
    ring

/-- The constructed longitude axis is strictly increasing. -/
theorem ss_lon_strictIncr : StrictIncr ss_lon := by
  intro j hj i hij
  have hi : i < ss_nlon := lt_trans hij hj
  rw [ss_lon_entry_eq hi, ss_lon_entry_eq hj]
  have : (i : ℝ) < (j : ℝ) := by exact_mod_cast hij
  linarith

/-! ## Miscellaneous helper lemmas -/

/-- Weak monotonicity from `StrictIncr`. -/
theorem strictIncr_le {α : Type} [LinearOrder α] {v : Vec α} (hv : StrictIncr v)
    {a b : ℕ} (hab : a ≤ b) (hb : b < v.len) : v.entry a ≤ v.entry b := by
  rcases eq_or_lt_of_le hab with rfl | hlt
  · exact le_refl _
  · exact (hv b hb a hlt).le

/-- Injectivity within bounds from `StrictIncr`. -/
theorem strictIncr_inj {α : Type} [LinearOrder α] {v : Vec α} (hv : StrictIncr v)
    {a b : ℕ} (ha : a < v.len) (hb : b < v.len) (h : v.entry a = v.entry b) :
    a = b := by
  rcases lt_trichotomy a b with hlt | heq | hgt
  · exact absurd (hv b hb a hlt) (by rw [h]; exact lt_irrefl _)
  · exact heq
  · exact absurd (hv a ha b hgt) (by rw [h]; exact lt_irrefl _)

/-- Quantity `(n + k - 1) / k` is the ceiling of `n / k` when `k ≥ 1`: it is the
least `d` with `n ≤ d * k`. -/
theorem ceil_div_spec (n k : ℕ) (hk : 1 ≤ k) :
    n ≤ ((n + k - 1) / k) * k ∧ ((n + k - 1) / k) * k < n + k := by
  have h2 : ((n + k - 1) / k) * k ≤ n + k - 1 := Nat.div_mul_le_self _ _
  have hdm := Nat.div_add_mod (n + k - 1) k
  have hmod : (n + k - 1) % k < k := Nat.mod_lt _ hk
  have hcomm : ((n + k - 1) / k) * k = k * ((n + k - 1) / k) := Nat.mul_comm _ _
  constructor
  · omega
  · omega

/-- An in-range index of a strided array addresses an in-range index of the
base array. -/
theorem stride_index_lt {n k i : ℕ} (hi : i < (n + k - 1) / k) : i * k < n := by
  rcases Nat.eq_zero_or_pos k with rfl | hk
  · rw [Nat.div_zero] at hi
    exact absurd hi (Nat.not_lt_zero i)
  · have h1 : (i + 1) * k ≤ ((n + k - 1) / k) * k :=
      Nat.mul_le_mul_right k hi
    have h2 : ((n + k - 1) / k) * k ≤ n + k - 1 := Nat.div_mul_le_self _ _
    have h3 : i * k + k ≤ n + k - 1 := by
      rw [add_mul, one_mul] at h1
      omega
    omega

/-- Calling `get_region` with a subsample is `get_region` without one, strided:
validation is identical and the stride is applied only at the end. -/
theorem core_subsample_map {α : Type} [LinearOrderedField α] (t : Topo α)
    (region : Box α) (k : ℕ) :
    get_region_core t region (some k) =
      (get_region_core t region none).map
        (fun r => (r.1.stride k, r.2.1.stride k, r.2.2.stride k)) := by
  simp only [get_region_core]
  split_ifs <;> rfl

/-! ## Claim C4 -/

/-- C4: `get_region` fails with a `RangeError` (a `ValueError` in the
source) if and only if, after sorting `(south, north)`, a longitude lies
outside the active ±180 convention, a latitude exceeds
`minlat`/`maxlat`, or the rectangle is degenerate.  The error is the
whole result (`Except.error`), so no partial data escapes, and it is
produced by the validation block before any access to the grid. -/
theorem claim4_rangeerror_iff {α : Type} [LinearOrderedField α] (t : Topo α)
    (region : Box α) (subsample : Option ℕ) :
    (∃ e : TopoError, get_region t region subsample = .error e) ↔
      (¬(-180 ≤ region.east ∧ region.east ≤ 180) ∨
       ¬(-180 ≤ region.west ∧ region.west ≤ 180) ∨
       min region.south region.north < t.minlat ∨
       max region.south region.north > t.maxlat ∨
       region.east = region.west ∨
       min region.south region.north = max region.south region.north) := by
  cases subsample with
  | none =>
    simp only [get_region, get_region_core]
    split_ifs with h1 h2 h3 h4
    · exact ⟨fun _ => by tauto, fun _ => ⟨.lonOut, rfl⟩⟩
    · exact ⟨fun _ => by tauto, fun _ => ⟨.latOut, rfl⟩⟩
    · exact ⟨fun _ => by tauto, fun _ => ⟨.degenerate, rfl⟩⟩
    · constructor
      · rintro ⟨e, he⟩
        exact absurd he (by simp [Except.map])
      · intro hcond
        exact absurd hcond (by tauto)
    · constructor
      · rintro ⟨e, he⟩
        exact absurd he (by simp [Except.map])
      · intro hcond
        exact absurd hcond (by tauto)
  | some k =>
    simp only [get_region, get_region_core]
    split_ifs with h1 h2 h3 h4
    · exact ⟨fun _ => by tauto, fun _ => ⟨.lonOut, rfl⟩⟩
    · exact ⟨fun _ => by tauto, fun _ => ⟨.latOut, rfl⟩⟩
    · exact ⟨fun _ => by tauto, fun _ => ⟨.degenerate, rfl⟩⟩
    · constructor
      · rintro ⟨e, he⟩
        exact absurd he (by simp [Except.map])
      · intro hcond
        exact absurd hcond (by tauto)
    · constructor
      · rintro ⟨e, he⟩
        exact absurd he (by simp [Except.map])
      · intro hcond
        exact absurd hcond (by tauto)

/-! ## Claim C6 -/

/-- C6: for every constructed dataset handle, the latitude axis and the
longitude axis are strictly increasing, with exactly `nlat = 17280`
resp. `nlon = 21600` entries.  (Immutability of the axes under `get_all`
and `get_region` is structural in this embedding: both are pure functions
that read the handle and build fresh output arrays.) -/
theorem claim6_axes_monotone_lengths (raw : ℕ → ℕ → ℤ) :
    StrictIncr (smithsandwell raw).lat ∧ StrictIncr (smithsandwell raw).lon ∧
    (smithsandwell raw).lat.len = 17280 ∧ (smithsandwell raw).lon.len = 21600 :=
  ⟨ss_lat_strictIncr, ss_lon_strictIncr, rfl, rfl⟩

/-! ## Claim C5 -/

/-- C5 counterexample: `get_all(subsample=1)` does NOT return the raw
backing grid element for element.  With a backing file whose every sample
records its on-disk row index, the returned `data[0, 0]` is the sample of
on-disk row `nlat - 1 = 17279` (and column `10800`), not the sample
`raw[0, 0] = 0`: the construction flips the rows (`np.flipud`) and
rotates the columns by `nlon/2` when re-sorting longitudes into ±180. -/
theorem claim5_identity_counterexample :
    ¬ ((get_all (smithsandwell raw_byrow) 1).2.2.entry 0 0 = raw_byrow 0 0) := by
  simp only [get_all, smithsandwell, Arr2.stride, ss_topomem, ss_flipud,
    ss_isort, ss_nlat, ss_nlon, raw_byrow]
  decide

/-- C5 amended: `get_all(subsample=1)` returns meshes and data of shape
`(17280, 21600)`, and `data[i, j]` equals the sample stored at on-disk row
`17280 - 1 - i` and on-disk column `(j + 10800) % 21600` of the backing
file (row flip and column rotation of the construction). -/
theorem claim5_identity_amended (raw : ℕ → ℕ → ℤ) (i j : ℕ) :
    (get_all (smithsandwell raw) 1).1.rows = 17280 ∧
    (get_all (smithsandwell raw) 1).1.cols = 21600 ∧
    (get_all (smithsandwell raw) 1).2.1.rows = 17280 ∧
    (get_all (smithsandwell raw) 1).2.1.cols = 21600 ∧
    (get_all (smithsandwell raw) 1).2.2.rows = 17280 ∧
    (get_all (smithsandwell raw) 1).2.2.cols = 21600 ∧
    (get_all (smithsandwell raw) 1).2.2.entry i j =
      raw (17280 - 1 - i) ((j + 10800) % 21600) := by
  refine ⟨?_, ?_, ?_, ?_, ?_, ?_, ?_⟩ <;>
    simp [get_all, smithsandwell, latMesh, lonMesh, Vec.stride, Arr2.stride,
      ss_lat, ss_lon, ss_topomem, ss_flipud, ss_isort, ss_nlat, ss_nlon]

/-! ## Claim C3 -/

/-- C3 counterexample: on the strictly increasing axis `[0, 1, 2]` with
value `1` (which does not precede all entries), `searchsorted_left` does
not return the largest index whose entry is `≤ 1` (that index is `1`, the
function returns `0`). -/
theorem claim3_boundary_counterexample :
    StrictIncr axis3 ∧ (∃ i : ℕ, i < axis3.len ∧ axis3.entry i ≤ 1) ∧
    ¬ (∀ j : ℕ, j < axis3.len → axis3.entry j ≤ 1 →
        j ≤ searchsorted_left axis3 1) := by
  decide

/-- C3 amended: on a strictly increasing axis, `searchsorted_left` returns
the largest index `i` with `axis[i] < value` (strictly), or `0` when no
entry is below `value`; `searchsorted_right` returns the smallest index
`i` with `axis[i] > value` (strictly), or `len - 1` when no entry is
above `value`. -/
theorem claim3_boundary_amended {α : Type} [LinearOrder α] (v : Vec α)
    (hv : StrictIncr v) (hlen : 0 < v.len) (x : α) :
    ((∃ i, i < v.len ∧ v.entry i < x) →
       searchsorted_left v x < v.len ∧ v.entry (searchsorted_left v x) < x ∧
       ∀ j, j < v.len → v.entry j < x → j ≤ searchsorted_left v x) ∧
    ((∀ i, i < v.len → ¬ v.entry i < x) → searchsorted_left v x = 0) ∧
    ((∃ i, i < v.len ∧ x < v.entry i) →
       searchsorted_right v x < v.len ∧ x < v.entry (searchsorted_right v x) ∧
       ∀ j, j < v.len → x < v.entry j → searchsorted_right v x ≤ j) ∧
    ((∀ i, i < v.len → ¬ x < v.entry i) → searchsorted_right v x = v.len - 1) := by
  have hLle := np_l_le_len v x
  have hRle := np_r_le_len v x
  refine ⟨?_, ?_, ?_, ?_⟩
  · rintro ⟨i, hi, hix⟩
    have hiL : i < np_searchsorted_l v x := (np_l_iff v hv x hi).mp hix
    have hL1 : 1 ≤ np_searchsorted_l v x := by omega
    have hleft : searchsorted_left v x = np_searchsorted_l v x - 1 := by
      unfold searchsorted_left
      omega
    refine ⟨by omega, ?_, ?_⟩
    · rw [hleft]
      exact (np_l_iff v hv x (by omega)).mpr (by omega)
    · intro j hj hjx
      have := (np_l_iff v hv x hj).mp hjx
      omega
  · intro hnone
    have hL0 : np_searchsorted_l v x = 0 := by
      by_contra hne
      have h0 : (0 : ℕ) < np_searchsorted_l v x := by omega
      exact hnone 0 hlen ((np_l_iff v hv x hlen).mpr h0)
    unfold searchsorted_left
    omega
  · rintro ⟨i, hi, hxi⟩
    have hiR : ¬ i < np_searchsorted_r v x := fun hcon =>
      absurd ((np_r_iff v hv x hi).mpr hcon) (not_le.mpr hxi)
    have hRi : np_searchsorted_r v x ≤ i := by omega
    have hright : searchsorted_right v x = np_searchsorted_r v x := by
      unfold searchsorted_right
      omega
    refine ⟨by omega, ?_, ?_⟩
    · rw [hright]
      have hRlen : np_searchsorted_r v x < v.len := by omega
      have : ¬ v.entry (np_searchsorted_r v x) ≤ x := fun hle =>
        absurd ((np_r_iff v hv x hRlen).mp hle) (lt_irrefl _)
      exact not_le.mp this
    · intro j hj hjx
      rw [hright]
      have : ¬ j < np_searchsorted_r v x := fun hcon =>
        absurd ((np_r_iff v hv x hj).mpr hcon) (not_le.mpr hjx)
      omega
  · intro hall
    have hRlen : np_searchsorted_r v x = v.len := by
      have : ∀ j, j < v.len → j < np_searchsorted_r v x := fun j hj =>
        (np_r_iff v hv x hj).mp (not_lt.mp (hall j hj))
      have hlast := this (v.len - 1) (by omega)
      omega
    unfold searchsorted_right
    omega

/-- C3 witness: the amended characterization applied to the concrete axis
`[0, 1, 2]` at value `1`. -/
theorem claim3_boundary_witness :
    StrictIncr axis3 ∧ 0 < axis3.len ∧
    (((∃ i, i < axis3.len ∧ axis3.entry i < 1) →
       searchsorted_left axis3 1 < axis3.len ∧
       axis3.entry (searchsorted_left axis3 1) < 1 ∧
       ∀ j, j < axis3.len → axis3.entry j < 1 → j ≤ searchsorted_left axis3 1) ∧
     ((∀ i, i < axis3.len → ¬ axis3.entry i < 1) → searchsorted_left axis3 1 = 0) ∧
     ((∃ i, i < axis3.len ∧ 1 < axis3.entry i) →
       searchsorted_right axis3 1 < axis3.len ∧
       1 < axis3.entry (searchsorted_right axis3 1) ∧
       ∀ j, j < axis3.len → 1 < axis3.entry j → searchsorted_right axis3 1 ≤ j) ∧
     ((∀ i, i < axis3.len → ¬ 1 < axis3.entry i) →
       searchsorted_right axis3 1 = axis3.len - 1)) :=
  ⟨by decide, by decide, claim3_boundary_amended axis3 (by decide) (by decide) 1⟩

/-! ## Claim C2 -/

/-- C2 counterexample: round-trip indexing fails on the latitude axis of a
constructed `smithsandwell` handle, and both halves of the claimed
identity fail.  At row `0`, the claim demands
`searchsorted_right(latitude, latitude[0]) = 0`, but the function returns
`min(np.searchsorted(..., side='right'), nlat - 1) = min(1, 17279) = 1`;
at row `1`, the claim demands
`searchsorted_left(latitude, latitude[1]) = 1`, but the function returns
`max(np.searchsorted(..., side='left') - 1, 0) = max(0, 0) = 0`. -/
theorem claim2_roundtrip_counterexample :
    ¬ (searchsorted_right (smithsandwell raw_byrow).lat
        ((smithsandwell raw_byrow).lat.entry 0) = 0) ∧
    ¬ (searchsorted_left (smithsandwell raw_byrow).lat
        ((smithsandwell raw_byrow).lat.entry 1) = 1) := by
  have hmono : StrictIncr (smithsandwell raw_byrow).lat := ss_lat_strictIncr
  have h0 : (0 : ℕ) < (smithsandwell raw_byrow).lat.len := by
    show (0 : ℕ) < 17280
    omega
  have h1 : (1 : ℕ) < (smithsandwell raw_byrow).lat.len := by
    show (1 : ℕ) < 17280
    omega
  constructor
  · have hr := np_r_at_entry _ hmono h0
    unfold searchsorted_right
    rw [hr]
    show ¬ (min (0 + 1) (17280 - 1) = 0)
    omega
  · have hl := np_l_at_entry _ hmono h1
    unfold searchsorted_left
    rw [hl]
    omega

/-- C2 amended: on the latitude axis of every constructed `smithsandwell`
handle, for every grid row index `i < nlat`,
`searchsorted_left(latitude, latitude[i])` equals `i - 1` (clamped at 0)
and `searchsorted_right(latitude, latitude[i])` equals
`min(i + 1, nlat - 1)`: the round trip is off by one on each side, not
the identity the spec states. -/
theorem claim2_roundtrip_amended (raw : ℕ → ℕ → ℤ) (i : ℕ) (hi : i < 17280) :
    searchsorted_left (smithsandwell raw).lat
      ((smithsandwell raw).lat.entry i) = i - 1 ∧
    searchsorted_right (smithsandwell raw).lat
      ((smithsandwell raw).lat.entry i) = min (i + 1) (17280 - 1) := by
  have hmono : StrictIncr (smithsandwell raw).lat := ss_lat_strictIncr
  have hi' : i < (smithsandwell raw).lat.len := hi
  have hl := np_l_at_entry _ hmono hi'
  have hr := np_r_at_entry _ hmono hi'
  constructor
  · unfold searchsorted_left
    rw [hl]
    omega
  · unfold searchsorted_right
    rw [hr]
    rfl

/-- C2 witness: the amended round trip at the interior row index `5`,
where neither clamp is degenerate: left yields `4`, right yields `6`. -/
theorem claim2_roundtrip_witness :
    (5 : ℕ) < 17280 ∧
    (searchsorted_left (smithsandwell raw_byrow).lat
        ((smithsandwell raw_byrow).lat.entry 5) = 5 - 1 ∧
     searchsorted_right (smithsandwell raw_byrow).lat
        ((smithsandwell raw_byrow).lat.entry 5) = min (5 + 1) (17280 - 1)) :=
  ⟨by omega, claim2_roundtrip_amended raw_byrow 5 (by omega)⟩

/-! ## Claim C10 -/

/-- C10: a query can pass validation and produce a zero-column result (its
longitude interval lies strictly below the first stored longitude), and
analogously a zero-row result (latitude interval strictly below the first
stored latitude): validation bounds do not guarantee nonempty output.
Exhibited on a well-formed concrete handle: `[-170, -140]` is inside the
±180 bounds but below `lon[0] = -135`; `[-5, -1]` is above `minlat = -10`
but below `lat[0] = 0`. -/
theorem claim10_empty_region_exists :
    ∃ (t : Topo ℚ) (box1 box2 : Box ℚ),
      StrictIncr t.lat ∧ StrictIncr t.lon ∧
      (∃ rlat rlon rtopo,
        get_region_core t box1 none = .ok (rlat, rlon, rtopo) ∧
        0 < rlat.len ∧ rlon.len = 0 ∧ rtopo.cols = 0) ∧
      (∃ rlat rlon rtopo,
        get_region_core t box2 none = .ok (rlat, rlon, rtopo) ∧
        rlat.len = 0 ∧ rtopo.rows = 0) := by
  refine ⟨demo, ⟨0, 1, -170, -140⟩, ⟨-5, -1, -50, 50⟩, by decide, by decide, ?_, ?_⟩
  · exact ⟨_, _, _, rfl, by decide, by decide, by decide⟩
  · exact ⟨_, _, _, rfl, by decide, by decide⟩

/-! ## Claim C8 -/

/-- C8: `get_region(query, subsample=k)` for positive `k` validates exactly
like the unsampled call and, on success, returns the unsampled arrays
strided by `k`: each axis length becomes `(len + k - 1) / k`, which is
`⌈len / k⌉` (the least `d` with `len ≤ d * k`), and each entry is the
corresponding every-`k`-th unsampled entry starting at index 0. -/
theorem claim8_subsample_stride {α : Type} [LinearOrderedField α] (t : Topo α)
    (region : Box α) (k : ℕ) (hk : 1 ≤ k) :
    (∀ e : TopoError, get_region_core t region none = .error e ↔
        get_region_core t region (some k) = .error e) ∧
    (∀ rlat rlon rtopo,
      get_region_core t region none = .ok (rlat, rlon, rtopo) →
      get_region_core t region (some k) =
          .ok (rlat.stride k, rlon.stride k, rtopo.stride k) ∧
      ((rlat.stride k).len = (rlat.len + k - 1) / k ∧
        rlat.len ≤ (rlat.stride k).len * k ∧
        (rlat.stride k).len * k < rlat.len + k) ∧
      (∀ i : ℕ, (rlat.stride k).entry i = rlat.entry (i * k)) ∧
      ((rlon.stride k).len = (rlon.len + k - 1) / k ∧
        rlon.len ≤ (rlon.stride k).len * k ∧
        (rlon.stride k).len * k < rlon.len + k) ∧
      (∀ i : ℕ, (rlon.stride k).entry i = rlon.entry (i * k)) ∧
      ((rtopo.stride k).rows = (rtopo.rows + k - 1) / k ∧
        rtopo.rows ≤ (rtopo.stride k).rows * k ∧
        (rtopo.stride k).rows * k < rtopo.rows + k) ∧
      ((rtopo.stride k).cols = (rtopo.cols + k - 1) / k ∧
        rtopo.cols ≤ (rtopo.stride k).cols * k ∧
        (rtopo.stride k).cols * k < rtopo.cols + k) ∧
      (∀ i j : ℕ, (rtopo.stride k).entry i j = rtopo.entry (i * k) (j * k))) := by
  constructor
  · intro e
    rw [core_subsample_map]
    cases hc : get_region_core t region none with
    | error e2 => simp [Except.map]
    | ok r => simp [Except.map]
  · intro rlat rlon rtopo h
    rw [core_subsample_map, h]
    refine ⟨rfl, ⟨rfl, ?_, ?_⟩, fun i => rfl, ⟨rfl, ?_, ?_⟩, fun i => rfl,
      ⟨rfl, ?_, ?_⟩, ⟨rfl, ?_, ?_⟩, fun i j => rfl⟩
    · exact (ceil_div_spec rlat.len k hk).1
    · exact (ceil_div_spec rlat.len k hk).2
    · exact (ceil_div_spec rlon.len k hk).1
    · exact (ceil_div_spec rlon.len k hk).2
    · exact (ceil_div_spec rtopo.rows k hk).1
    · exact (ceil_div_spec rtopo.rows k hk).2
    · exact (ceil_div_spec rtopo.cols k hk).1
    · exact (ceil_div_spec rtopo.cols k hk).2

/-- C8 witness: stride relation instantiated on the concrete handle with
`k = 2`. -/
theorem claim8_subsample_witness :
    (1 : ℕ) ≤ 2 ∧
    ((∀ e : TopoError, get_region_core demo ⟨0, 1, -135, 40⟩ none = .error e ↔
        get_region_core demo ⟨0, 1, -135, 40⟩ (some 2) = .error e) ∧
     (∀ rlat rlon rtopo,
      get_region_core demo ⟨0, 1, -135, 40⟩ none = .ok (rlat, rlon, rtopo) →
      get_region_core demo ⟨0, 1, -135, 40⟩ (some 2) =
          .ok (rlat.stride 2, rlon.stride 2, rtopo.stride 2) ∧
      ((rlat.stride 2).len = (rlat.len + 2 - 1) / 2 ∧
        rlat.len ≤ (rlat.stride 2).len * 2 ∧
        (rlat.stride 2).len * 2 < rlat.len + 2) ∧
      (∀ i : ℕ, (rlat.stride 2).entry i = rlat.entry (i * 2)) ∧
      ((rlon.stride 2).len = (rlon.len + 2 - 1) / 2 ∧
        rlon.len ≤ (rlon.stride 2).len * 2 ∧
        (rlon.stride 2).len * 2 < rlon.len + 2) ∧
      (∀ i : ℕ, (rlon.stride 2).entry i = rlon.entry (i * 2)) ∧
      ((rtopo.stride 2).rows = (rtopo.rows + 2 - 1) / 2 ∧
        rtopo.rows ≤ (rtopo.stride 2).rows * 2 ∧
        (rtopo.stride 2).rows * 2 < rtopo.rows + 2) ∧
      ((rtopo.stride 2).cols = (rtopo.cols + 2 - 1) / 2 ∧
        rtopo.cols ≤ (rtopo.stride 2).cols * 2 ∧
        (rtopo.stride 2).cols * 2 < rtopo.cols + 2) ∧
      (∀ i j : ℕ, (rtopo.stride 2).entry i j = rtopo.entry (i * 2) (j * 2)))) :=
  ⟨by decide, claim8_subsample_stride demo ⟨0, 1, -135, 40⟩ 2 (by decide)⟩

/-! ## Claim C7 -/

/-- Both boundary indices stay below the axis length on a nonempty axis. -/
theorem searchsorted_left_lt_len {α : Type} [LinearOrder α] (v : Vec α) (x : α)
    (h : 0 < v.len) : searchsorted_left v x < v.len := by
  have := np_l_le_len v x
  unfold searchsorted_left
  omega

theorem searchsorted_right_lt_len {α : Type} [LinearOrder α] (v : Vec α) (x : α)
    (h : 0 < v.len) : searchsorted_right v x < v.len := by
  unfold searchsorted_right
  omega

/-- C7: for an accepted non-seam query (`west ≤ east`) on a handle whose
longitude axis is strictly increasing and evenly spaced with step `d > 0`
(and with `west ≤ lon[len-1] + d`, which holds for any in-bounds west on
the constructed grid since its axis ends at `180 - 1/120` with step
`1/60`), every returned longitude lies in `[west, east]` widened by at
most one grid cell on each side. -/
theorem claim7_noseam_containment {α : Type} [LinearOrderedField α]
    (t : Topo α) (region : Box α) (d : α)
    (hmono : StrictIncr t.lon) (hstep : EquiSpaced t.lon d) (hd : 0 < d)
    (hlen : 0 < t.lon.len)
    (hwe : region.west ≤ region.east)
    (hwin : region.west ≤ t.lon.entry (t.lon.len - 1) + d) :
    ∀ rlat rlon rtopo,
      get_region_core t region none = .ok (rlat, rlon, rtopo) →
      ∀ j, j < rlon.len →
        region.west - d ≤ rlon.entry j ∧ rlon.entry j ≤ region.east + d := by
  intro rlat rlon rtopo h
  simp only [get_region_core] at h
  split_ifs at h with hv1 hv2 hv3 hv4
  · exact absurd hv4 (not_lt.mpr hwe)
  · rw [Except.ok.injEq, Prod.mk.injEq, Prod.mk.injEq] at h
    obtain ⟨-, hb, -⟩ := h
    subst hb
    intro j hj
    have hLn : np_searchsorted_l t.lon region.west ≤ t.lon.len :=
      np_l_le_len t.lon region.west
    have hRn : np_searchsorted_r t.lon region.east ≤ t.lon.len :=
      np_r_le_len t.lon region.east
    have hiw : searchsorted_left t.lon region.west =
        np_searchsorted_l t.lon region.west - 1 := by
      unfold searchsorted_left
      omega
    have hie : searchsorted_right t.lon region.east =
        min (np_searchsorted_r t.lon region.east) (t.lon.len - 1) := rfl
    simp only [Vec.slice] at hj ⊢
    rw [hiw, hie] at hj
    rw [hiw]
    set L := np_searchsorted_l t.lon region.west with hLdef
    set R := np_searchsorted_r t.lon region.east with hRdef
    set n := t.lon.len with hndef
    have hidx_ie : L - 1 + j < min R (n - 1) := by omega
    have hidx_n : L - 1 + j < n := by omega
    have hupp : t.lon.entry (L - 1 + j) ≤ region.east :=
      (np_r_iff t.lon hmono region.east hidx_n).mpr (by omega)
    have hlow : region.west - d ≤ t.lon.entry (L - 1) := by
      rcases Nat.eq_zero_or_pos L with hL0 | hL1
      · have h0 : ¬ t.lon.entry 0 < region.west := fun hc => by
          have := (np_l_iff t.lon hmono region.west hlen).mp hc
          omega
        have hge : region.west ≤ t.lon.entry 0 := not_lt.mp h0
        rw [hL0]
        show region.west - d ≤ t.lon.entry (0 - 1)
        simp only [Nat.zero_sub]
        linarith
      · rcases Nat.lt_or_ge L n with hLlt | hLge
        · have hnotlt : ¬ t.lon.entry L < region.west := fun hc => by
            have := (np_l_iff t.lon hmono region.west hLlt).mp hc
            omega
          have hwle : region.west ≤ t.lon.entry L := not_lt.mp hnotlt
          have hstepL : t.lon.entry (L - 1 + 1) = t.lon.entry (L - 1) + d :=
            hstep (L - 1) (by omega)
          have heq : L - 1 + 1 = L := by omega
          rw [heq] at hstepL
          linarith
        · have heq : L - 1 = n - 1 := by omega
          rw [heq]
          linarith
    have hmon : t.lon.entry (L - 1) ≤ t.lon.entry (L - 1 + j) :=
      strictIncr_le hmono (Nat.le_add_right _ _) hidx_n
    exact ⟨by linarith, by linarith⟩

/-- C7 witness: containment on the concrete handle for the box
`south 0, north 1, west -50, east 50` (step `d = 90`). -/
theorem claim7_noseam_witness :
    StrictIncr demo.lon ∧ EquiSpaced demo.lon 90 ∧ (0 : ℚ) < 90 ∧
    0 < demo.lon.len ∧ ((-50 : ℚ) ≤ 50) ∧
    ((-50 : ℚ) ≤ demo.lon.entry (demo.lon.len - 1) + 90) ∧
    (∀ rlat rlon rtopo,
      get_region_core demo ⟨0, 1, -50, 50⟩ none = .ok (rlat, rlon, rtopo) →
      ∀ j, j < rlon.len →
        (-50 : ℚ) - 90 ≤ rlon.entry j ∧ rlon.entry j ≤ 50 + 90) := by
  have hstep : EquiSpaced demo.lon 90 := by
    intro k hk
    have hk3 : k < 3 := hk
    interval_cases k <;> norm_num [demo]
  have hwin : (-50 : ℚ) ≤ demo.lon.entry (demo.lon.len - 1) + 90 := by
    norm_num [demo]
  exact ⟨by decide, hstep, by norm_num, by decide, by norm_num, hwin,
    claim7_noseam_containment demo ⟨0, 1, -50, 50⟩ 90 (by decide) hstep
      (by norm_num) (by decide) (by norm_num) hwin⟩

/-! ## Claim C9 -/

/-- Every entry of the (unsampled) extracted data block is read from an
in-bounds row/column of `topomem`. -/
theorem core_none_topo_inbounds {α : Type} [LinearOrderedField α]
    (t : Topo α) (region : Box α)
    (hlat : 0 < t.lat.len) (hlon : 0 < t.lon.len)
    (hrows : t.topomem.rows = t.lat.len) (hcols : t.topomem.cols = t.lon.len)
    (hnlon : t.nlon = t.lon.len) :
    ∀ rlat rlon rtopo,
      get_region_core t region none = .ok (rlat, rlon, rtopo) →
      ∀ i j, i < rtopo.rows → j < rtopo.cols →
        ∃ a b, a < t.topomem.rows ∧ b < t.topomem.cols ∧
          rtopo.entry i j = t.topomem.entry a b := by
  intro rlat rlon rtopo h
  have hjs := searchsorted_left_lt_len t.lat (min region.south region.north) hlat
  have hjn := searchsorted_right_lt_len t.lat (max region.south region.north) hlat
  have hiw := searchsorted_left_lt_len t.lon region.west hlon
  have hie := searchsorted_right_lt_len t.lon region.east hlon
  simp only [get_region_core] at h
  split_ifs at h with hv1 hv2 hv3 hv4
  · rw [Except.ok.injEq, Prod.mk.injEq, Prod.mk.injEq] at h
    obtain ⟨-, -, hc⟩ := h
    subst hc
    intro i j hi hj
    by_cases hjw : j < t.nlon - searchsorted_left t.lon region.west
    · refine ⟨searchsorted_left t.lat (min region.south region.north) + i,
        searchsorted_left t.lon region.west + j, ?_, ?_, by simp [hjw]⟩
      · have hi' : i < searchsorted_right t.lat (max region.south region.north) -
            searchsorted_left t.lat (min region.south region.north) := hi
        omega
      · omega
    · refine ⟨searchsorted_left t.lat (min region.south region.north) + i,
        j - (t.nlon - searchsorted_left t.lon region.west), ?_, ?_, by simp [hjw]⟩
      · have hi' : i < searchsorted_right t.lat (max region.south region.north) -
            searchsorted_left t.lat (min region.south region.north) := hi
        omega
      · have hj' : j < searchsorted_right t.lon region.east +
            (t.nlon - searchsorted_left t.lon region.west) := hj
        omega
  · rw [Except.ok.injEq, Prod.mk.injEq, Prod.mk.injEq] at h
    obtain ⟨-, -, hc⟩ := h
    subst hc
    intro i j hi hj
    simp only [Arr2.slice] at hi hj ⊢
    exact ⟨searchsorted_left t.lat (min region.south region.north) + i,
      searchsorted_left t.lon region.west + j, by omega, by omega, rfl⟩

/-- C9: `searchsorted_left` and `searchsorted_right` always return an index
in `[0, len-1]` on a nonempty axis; consequently the four box indices that
`get_region` derives are within the axes, and every entry of the returned
data block (for any subsample) is read from an in-bounds row/column of
`topomem`. -/
theorem claim9_index_safety {α : Type} [LinearOrderedField α] (t : Topo α)
    (region : Box α) (ss : Option ℕ)
    (hlat : 0 < t.lat.len) (hlon : 0 < t.lon.len)
    (hrows : t.topomem.rows = t.lat.len) (hcols : t.topomem.cols = t.lon.len)
    (hnlon : t.nlon = t.lon.len) :
    (∀ (v : Vec α) (x : α), 0 < v.len →
        searchsorted_left v x < v.len ∧ searchsorted_right v x < v.len) ∧
    (searchsorted_left t.lat (min region.south region.north) < t.lat.len ∧
     searchsorted_right t.lat (max region.south region.north) < t.lat.len ∧
     searchsorted_left t.lon region.west < t.lon.len ∧
     searchsorted_right t.lon region.east < t.lon.len) ∧
    (∀ rlat rlon rtopo,
      get_region_core t region ss = .ok (rlat, rlon, rtopo) →
      ∀ i j, i < rtopo.rows → j < rtopo.cols →
        ∃ a b, a < t.topomem.rows ∧ b < t.topomem.cols ∧
          rtopo.entry i j = t.topomem.entry a b) := by
  refine ⟨fun v x hv => ⟨searchsorted_left_lt_len v x hv,
      searchsorted_right_lt_len v x hv⟩,
    ⟨searchsorted_left_lt_len t.lat _ hlat, searchsorted_right_lt_len t.lat _ hlat,
     searchsorted_left_lt_len t.lon _ hlon, searchsorted_right_lt_len t.lon _ hlon⟩,
    ?_⟩
  intro rlat rlon rtopo h i j hi hj
  cases ss with
  | none =>
    exact core_none_topo_inbounds t region hlat hlon hrows hcols hnlon
      rlat rlon rtopo h i j hi hj
  | some k =>
    rw [core_subsample_map] at h
    cases hc : get_region_core t region none with
    | error e =>
      rw [hc] at h
      simp [Except.map] at h
    | ok r =>
      rw [hc] at h
      simp only [Except.map, Except.ok.injEq, Prod.mk.injEq] at h
      obtain ⟨-, -, hc3⟩ := h
      subst hc3
      have hik : i * k < r.2.2.rows := stride_index_lt hi
      have hjk : j * k < r.2.2.cols := stride_index_lt hj
      obtain ⟨a, b, ha, hb, heq⟩ :=
        core_none_topo_inbounds t region hlat hlon hrows hcols hnlon
          r.1 r.2.1 r.2.2 (by rw [hc]) (i * k) (j * k) hik hjk
      exact ⟨a, b, ha, hb, heq⟩

/-- C9 witness: index safety instantiated on the concrete handle. -/
theorem claim9_index_witness :
    (0 < demo.lat.len ∧ 0 < demo.lon.len ∧ demo.topomem.rows = demo.lat.len ∧
     demo.topomem.cols = demo.lon.len ∧ demo.nlon = demo.lon.len) ∧
    ((∀ (v : Vec ℚ) (x : ℚ), 0 < v.len →
        searchsorted_left v x < v.len ∧ searchsorted_right v x < v.len) ∧
     (searchsorted_left demo.lat (min (0 : ℚ) 1) < demo.lat.len ∧
      searchsorted_right demo.lat (max (0 : ℚ) 1) < demo.lat.len ∧
      searchsorted_left demo.lon (-50 : ℚ) < demo.lon.len ∧
      searchsorted_right demo.lon (50 : ℚ) < demo.lon.len) ∧
     (∀ rlat rlon rtopo,
      get_region_core demo ⟨0, 1, -50, 50⟩ none = .ok (rlat, rlon, rtopo) →
      ∀ i j, i < rtopo.rows → j < rtopo.cols →
        ∃ a b, a < demo.topomem.rows ∧ b < demo.topomem.cols ∧
          rtopo.entry i j = demo.topomem.entry a b)) :=
  ⟨⟨by decide, by decide, by decide, by decide, by decide⟩,
   claim9_index_safety demo ⟨0, 1, -50, 50⟩ none (by decide) (by decide)
     (by decide) (by decide) (by decide)⟩

/-! ## Claim C1 -/

/-- On an axis spanning less than 360 degrees, stored longitudes are
distinct modulo 360: congruence forces equal indices. -/
theorem lon_congr_unique {α : Type} [LinearOrderedField α] {v : Vec α}
    (hmono : StrictIncr v)
    (hspan : v.entry (v.len - 1) < v.entry 0 + 360)
    {c c2 : ℕ} (hc : c < v.len) (hc2 : c2 < v.len)
    (h : lonCongr (v.entry c) (v.entry c2)) : c2 = c := by
  obtain ⟨k, hk⟩ := h
  have h1 : v.entry 0 ≤ v.entry c := strictIncr_le hmono (Nat.zero_le _) hc
  have h2 : v.entry c ≤ v.entry (v.len - 1) :=
    strictIncr_le hmono (by omega) (by omega)
  have h3 : v.entry 0 ≤ v.entry c2 := strictIncr_le hmono (Nat.zero_le _) hc2
  have h4 : v.entry c2 ≤ v.entry (v.len - 1) :=
    strictIncr_le hmono (by omega) (by omega)
  have hub : (360 : α) * k < 360 * 1 := by
    rw [mul_one]
    linarith
  have hlb : (360 : α) * (-1) < 360 * k := by
    linarith
  have hk1 : (k : α) < 1 :=
    lt_of_mul_lt_mul_left hub (by norm_num)
  have hk2 : (-1 : α) < (k : α) :=
    lt_of_mul_lt_mul_left hlb (by norm_num)
  have hk0 : k = 0 := by
    have ha : k < 1 := by exact_mod_cast hk1
    have hb : (-1 : ℤ) < k := by exact_mod_cast hk2
    omega
  rw [hk0] at hk
  have heq : v.entry c = v.entry c2 := by
    push_cast at hk
    linarith
  exact strictIncr_inj hmono hc2 hc heq.symm

/-- The glued seam-crossing longitude vector (western remainder at its own
longitudes, then the eastern block shifted by +360) is strictly increasing
when the axis is strictly increasing and spans less than 360 degrees. -/
theorem seam_glue_strictIncr {α : Type} [LinearOrderedField α] (v : Vec α)
    (hmono : StrictIncr v) (nlon iw ie : ℕ) (hlen : v.len = nlon)
    (hiw : iw < nlon) (hie : ie < nlon)
    (hspan : v.entry (v.len - 1) < v.entry 0 + 360) :
    StrictIncr ⟨ie + (nlon - iw), fun j =>
      if j < nlon - iw then v.entry (iw + j)
      else v.entry (j - (nlon - iw)) + 360⟩ := by
  intro j2 hj2 j1 h12
  have hj2' : j2 < ie + (nlon - iw) := hj2
  show (if j1 < nlon - iw then v.entry (iw + j1)
        else v.entry (j1 - (nlon - iw)) + 360) <
       (if j2 < nlon - iw then v.entry (iw + j2)
        else v.entry (j2 - (nlon - iw)) + 360)
  by_cases hc1 : j1 < nlon - iw <;> by_cases hc2 : j2 < nlon - iw
  · rw [if_pos hc1, if_pos hc2]
    exact hmono (iw + j2) (by omega) (iw + j1) (by omega)
  · rw [if_pos hc1, if_neg hc2]
    have e1 : v.entry (iw + j1) ≤ v.entry (v.len - 1) :=
      strictIncr_le hmono (by omega) (by omega)
    have e2 : v.entry 0 ≤ v.entry (j2 - (nlon - iw)) :=
      strictIncr_le hmono (Nat.zero_le _) (by omega)
    linarith
  · exact absurd hc2 (by omega)
  · rw [if_neg hc1, if_neg hc2]
    have := hmono (j2 - (nlon - iw)) (by omega) (j1 - (nlon - iw)) (by omega)
    linarith

/-- C1: for an accepted seam-crossing query (`west > east`) on a handle
whose longitude axis is strictly increasing with `nlon` entries and spans
less than 360 degrees (true of the constructed grid), the returned
longitude vector is strictly increasing end to end (so no duplicated and
no missing column at the seam), and every output data column `j` is the
unique source-grid column whose stored longitude is congruent to the
output `longitude[j]` modulo 360, read row for row from `topomem`. -/
theorem claim1_seam_monotone_congruent {α : Type} [LinearOrderedField α]
    (t : Topo α) (region : Box α)
    (hmono : StrictIncr t.lon) (hlen : t.lon.len = t.nlon) (hpos : 0 < t.nlon)
    (hspan : t.lon.entry (t.lon.len - 1) < t.lon.entry 0 + 360)
    (hwe : region.east < region.west) :
    ∀ rlat rlon rtopo,
      get_region_core t region none = .ok (rlat, rlon, rtopo) →
      StrictIncr rlon ∧
      (∀ j, j < rlon.len →
        ∃ c, c < t.nlon ∧
          lonCongr (rlon.entry j) (t.lon.entry c) ∧
          (∀ i, i < rtopo.rows →
            rtopo.entry i j = t.topomem.entry
              (searchsorted_left t.lat (min region.south region.north) + i) c) ∧
          (∀ c2, c2 < t.nlon → lonCongr (rlon.entry j) (t.lon.entry c2) →
            c2 = c)) := by
  intro rlat rlon rtopo h
  have hlen0 : 0 < t.lon.len := by omega
  have hiw : searchsorted_left t.lon region.west < t.nlon := by
    have := searchsorted_left_lt_len t.lon region.west hlen0
    omega
  have hie : searchsorted_right t.lon region.east < t.nlon := by
    have := searchsorted_right_lt_len t.lon region.east hlen0
    omega
  simp only [get_region_core] at h
  split_ifs at h with hv1 hv2 hv3
  · rw [Except.ok.injEq, Prod.mk.injEq, Prod.mk.injEq] at h
    obtain ⟨-, hb, hc⟩ := h
    subst hb
    subst hc
    constructor
    · exact seam_glue_strictIncr t.lon hmono t.nlon
        (searchsorted_left t.lon region.west)
        (searchsorted_right t.lon region.east) hlen hiw hie hspan
    · intro j hj
      have hj' : j < searchsorted_right t.lon region.east +
          (t.nlon - searchsorted_left t.lon region.west) := hj
      by_cases hjw : j < t.nlon - searchsorted_left t.lon region.west
      · refine ⟨searchsorted_left t.lon region.west + j, by omega, ?_, ?_, ?_⟩
        · exact ⟨0, by simp [hjw]⟩
        · intro i hi
          simp [hjw]
        · intro c2 hc2 hcong
          have he : (⟨searchsorted_right t.lon region.east +
              (t.nlon - searchsorted_left t.lon region.west), fun j =>
              if j < t.nlon - searchsorted_left t.lon region.west then
                t.lon.entry (searchsorted_left t.lon region.west + j)
              else t.lon.entry
                (j - (t.nlon - searchsorted_left t.lon region.west)) + 360⟩ :
                Vec α).entry j =
              t.lon.entry (searchsorted_left t.lon region.west + j) := by
            simp [hjw]
          rw [he] at hcong
          exact lon_congr_unique hmono hspan (by omega) (by omega) hcong
      · refine ⟨j - (t.nlon - searchsorted_left t.lon region.west),
          by omega, ?_, ?_, ?_⟩
        · refine ⟨1, ?_⟩
          show (if j < t.nlon - searchsorted_left t.lon region.west then
              t.lon.entry (searchsorted_left t.lon region.west + j)
            else t.lon.entry
              (j - (t.nlon - searchsorted_left t.lon region.west)) + 360) -
            t.lon.entry (j - (t.nlon - searchsorted_left t.lon region.west)) =
            360 * ((1 : ℤ) : α)
          rw [if_neg hjw]
          push_cast
          ring
        · intro i hi
          simp [hjw]
        · intro c2 hc2 hcong
          obtain ⟨k, hk⟩ := hcong
          have he : (⟨searchsorted_right t.lon region.east +
              (t.nlon - searchsorted_left t.lon region.west), fun j =>
              if j < t.nlon - searchsorted_left t.lon region.west then
                t.lon.entry (searchsorted_left t.lon region.west + j)
              else t.lon.entry
                (j - (t.nlon - searchsorted_left t.lon region.west)) + 360⟩ :
                Vec α).entry j =
              t.lon.entry
                (j - (t.nlon - searchsorted_left t.lon region.west)) + 360 := by
            simp [hjw]
          rw [he] at hk
          have hk' : t.lon.entry
              (j - (t.nlon - searchsorted_left t.lon region.west)) -
              t.lon.entry c2 = 360 * ((k - 1 : ℤ) : α) := by
            push_cast
            linarith
          exact lon_congr_unique hmono hspan (by omega) (by omega) ⟨k - 1, hk'⟩

/-- C1 witness: the seam invariants instantiated on the concrete handle for
the query `south 0, north 1, west 100, east -100`. -/
theorem claim1_seam_witness :
    StrictIncr demo.lon ∧ demo.lon.len = demo.nlon ∧ 0 < demo.nlon ∧
    demo.lon.entry (demo.lon.len - 1) < demo.lon.entry 0 + 360 ∧
    ((-100 : ℚ) < 100) ∧
    (∀ rlat rlon rtopo,
      get_region_core demo ⟨0, 1, 100, -100⟩ none = .ok (rlat, rlon, rtopo) →
      StrictIncr rlon ∧
      (∀ j, j < rlon.len →
        ∃ c, c < demo.nlon ∧
          lonCongr (rlon.entry j) (demo.lon.entry c) ∧
          (∀ i, i < rtopo.rows →
            rtopo.entry i j = demo.topomem.entry
              (searchsorted_left demo.lat (min (0 : ℚ) 1) + i) c) ∧
          (∀ c2, c2 < demo.nlon → lonCongr (rlon.entry j) (demo.lon.entry c2) →
            c2 = c))) := by
  have hspan : demo.lon.entry (demo.lon.len - 1) < demo.lon.entry 0 + 360 := by
    norm_num [demo]
  exact ⟨by decide, by decide, by decide, hspan, by norm_num,
    claim1_seam_monotone_congruent demo ⟨0, 1, 100, -100⟩ (by decide)
      (by decide) (by decide) hspan (by norm_num)⟩

end Globotopo
